import Mathlib

/-!
Verification of the crafting-calculator backend (`server.js` + `schema.sql`).

The file gives a shallow embedding of the per-request logic of the analytical
endpoints — `POST /api/crafting/check-possibilities`,
`POST /api/crafting/analyze-potential-crafts`, `GET /api/items/most-profitable-npc`,
`GET /api/items/filter-by-material-profile`, `GET /api/materials/usage-summary` —
and proves theorems about them.

Modelling conventions:
* Database rows become structures mirroring the SQL schema (`recipes`,
  `recipe_materials`).  Integer columns become `Nat` (all relevant columns are
  non-negative; `quantity_produced` is `NOT NULL DEFAULT 1`, prices default 0).
* The JavaScript number `Infinity`, used by the handlers as a sentinel for
  "no constraint found yet" / unbounded craftability, is modelled by the
  two-constructor type `Crafts` (`fin n` or `inf`).
* A JS object used as a map (`userInventory`) is modelled as an association
  list from lower-cased names to accumulated quantities, in insertion order.
* `JSON` responses become plain Lean structures; a JS object property that a
  handler never writes is modelled as an `Option` field that stays `none`.
* `Array.prototype.sort` with a numeric comparator is a stable sort; the
  ECMAScript specification coerces a `NaN` comparator result (which arises
  for two `Infinity` keys) to `+0`, so ties keep their original order.  It is
  modelled by `stableSort`, a stable insertion sort defined below.
-/

/-- ASCII lower-casing, modelling both SQLite `LOWER` and the ASCII fragment of
JavaScript `String.prototype.toLowerCase` (all comparisons in the handlers
lower-case both sides, so only the common ASCII behaviour matters). -/
def lowerStr (s : String) : String :=
  String.mk (s.data.map Char.toLower)

/-- A row of the `recipes` table (columns selected by the handlers). -/
structure Recipe where
  id : Nat
  name : String
  quantity_produced : Nat
  npc_sell_price : Nat
deriving DecidableEq, Repr

/-- A row of the `recipe_materials` table. -/
structure MaterialLine where
  recipe_id : Nat
  material_name : String
  quantity : Nat
  material_type : String
  default_npc_price : Nat
deriving DecidableEq, Repr

/-- One entry of a caller-supplied materials array (`availableMaterials` /
`userMaterials`).  `material_name = ""` models a missing or empty name (both
are falsy in JS); `quantity = none` models a non-numeric quantity. -/
structure InvEntry where
  material_name : String
  quantity : Option Int
deriving DecidableEq, Repr

/-- The shape check applied to each entry while building `userInventory`:
`mat.material_name && typeof mat.quantity === 'number' && mat.quantity >= 0`. -/
def validEntry (e : InvEntry) : Bool :=
  e.material_name != "" &&
    (match e.quantity with
     | some q => decide (0 ≤ q)
     | none => false)

/-- The `userInventory` map: lower-cased material name → accumulated quantity,
kept in insertion order. -/
abbrev Inventory := List (String × Nat)

/-- `acc[key] = (acc[key] || 0) + q` on the inventory map. -/
def addMat (acc : Inventory) (key : String) (q : Nat) : Inventory :=
  if acc.any (fun p => p.1 == key) then
    acc.map (fun p => if p.1 == key then (p.1, p.2 + q) else p)
  else
    acc ++ [(key, q)]

/-- The `reduce` in both crafting handlers: valid entries are summed into the
map under their lower-cased name, invalid entries are skipped. -/
def buildInventory (entries : List InvEntry) : Inventory :=
  entries.foldl
    (fun acc e =>
      if validEntry e then
        addMat acc (lowerStr e.material_name) (e.quantity.getD 0).toNat
      else acc)
    []

/-- `userInventory[name.toLowerCase()] || 0`. -/
def invQty (inv : Inventory) (name : String) : Nat :=
  (inv.lookup (lowerStr name)).getD 0

/-- `userInventory.hasOwnProperty(name.toLowerCase())`. -/
def invHasKey (inv : Inventory) (name : String) : Bool :=
  inv.any (fun p => p.1 == lowerStr name)

/-- Insert `a` into `l` before the first element `b` with `le a b`.  Used by
`stableSort`. -/
def insertLe (le : α → α → Bool) (a : α) : List α → List α
  | [] => [a]
  | b :: bs => if le a b then a :: b :: bs else b :: insertLe le a bs

/-- Stable insertion sort: the model of `Array.prototype.sort` with a
consistent comparator (ECMAScript sorts are stable; a tie — including the
`NaN` produced by `Infinity - Infinity`, which the spec coerces to `+0` —
keeps the original order).  `le a b` means "`a` may stay before `b`". -/
def stableSort (le : α → α → Bool) : List α → List α
  | [] => []
  | a :: rest => insertLe le a (stableSort le rest)

/-- A JS number used as a craft count: a finite natural or the `Infinity`
sentinel. -/
inductive Crafts where
  | fin : Nat → Crafts
  | inf : Crafts
deriving DecidableEq, Repr

/-- `if (possible < acc) acc = possible`, i.e. the minimum in the JS number
order with `Infinity` on top. -/
def Crafts.min : Crafts → Crafts → Crafts
  | .inf, b => b
  | .fin a, .inf => .fin a
  | .fin a, .fin b => .fin (Nat.min a b)

/-- The JS `<=` on craft counts (`Infinity` is the top element). -/
def Crafts.le : Crafts → Crafts → Bool
  | _, .inf => true
  | .inf, .fin _ => false
  | .fin a, .fin b => a ≤ b

/-- The per-recipe loop of `POST /api/crafting/check-possibilities`
(server.js lines 462–475), with accumulator `maxCraftsForThisRecipe`.
A shortfall (`userHasQty < neededQtyPerCraft`) breaks out with 0.
For a line with `quantity = 0` the JS computes
`Math.floor(userHasQty / 0)`, which is `Infinity` (or `NaN` when
`userHasQty` is 0); neither is ever `<` the accumulator, so the line
leaves the accumulator unchanged — modelled by skipping it. -/
def checkMaxCrafts (inv : Inventory) : List MaterialLine → Crafts → Crafts
  | [], acc => acc
  | m :: rest, acc =>
    let h := invQty inv m.material_name
    if h < m.quantity then .fin 0
    else if m.quantity = 0 then checkMaxCrafts inv rest acc
    else checkMaxCrafts inv rest (Crafts.min acc (.fin (h / m.quantity)))

/-- One element of `materials_needed` in a check-possibilities result. -/
structure MaterialNeeded where
  material_name : String
  quantity_per_craft : Nat
  total_quantity_needed_for_max_crafts : Nat
  user_has_quantity : Nat
deriving DecidableEq, Repr

/-- One element of the `craftableItems` response array.  The handler never
writes an `unbounded` property, so that field is always `none`;
`total_items_producible` is only written in the bounded branch;
`max_crafts_possible` is `Infinity` in the zero-material branch. -/
structure CraftableItem where
  recipe_id : Nat
  recipe_name : String
  quantity_produced_per_craft : Nat
  max_crafts_possible : Crafts
  unbounded : Option Bool
  total_items_producible : Option Nat
  materials_needed : List MaterialNeeded
deriving DecidableEq, Repr

/-- The per-recipe body of `POST /api/crafting/check-possibilities` after the
inventory was built: the zero-material branch pushes an `Infinity` entry;
otherwise the loop result is pushed only when
`canCraftRecipe && maxCrafts > 0 && maxCrafts !== Infinity`
(the break that clears `canCraftRecipe` also sets the count to 0, so the
push condition is equivalent to the loop returning a finite positive
count). -/
def checkEntryFor (inv : Inventory) (mats : List MaterialLine) (r : Recipe) :
    Option CraftableItem :=
  let lines := mats.filter (fun m => m.recipe_id == r.id)
  if lines.isEmpty then
    some { recipe_id := r.id, recipe_name := r.name,
           quantity_produced_per_craft := r.quantity_produced,
           max_crafts_possible := .inf, unbounded := none,
           total_items_producible := none, materials_needed := [] }
  else
    match checkMaxCrafts inv lines .inf with
    | .fin m =>
      if 0 < m then
        some { recipe_id := r.id, recipe_name := r.name,
               quantity_produced_per_craft := r.quantity_produced,
               max_crafts_possible := .fin m, unbounded := none,
               total_items_producible := some (m * r.quantity_produced),
               materials_needed := lines.map (fun l =>
                 { material_name := l.material_name,
                   quantity_per_craft := l.quantity,
                   total_quantity_needed_for_max_crafts := l.quantity * m,
                   user_has_quantity := invQty inv l.material_name }) }
      else none
    | .inf => none

/-- The comparator of the final
`sort((a,b) => b.max_crafts_possible - a.max_crafts_possible)` read as
"`a` may stay before `b`". -/
def byMaxDesc (a b : CraftableItem) : Bool :=
  Crafts.le b.max_crafts_possible a.max_crafts_possible

/-- The `craftableItems` array of the handler: `checkEntryFor` per recipe,
then the stable descending sort on `max_crafts_possible`. -/
def checkPossibilities (recipes : List Recipe) (mats : List MaterialLine)
    (inv : Inventory) : List CraftableItem :=
  stableSort byMaxDesc (recipes.filterMap (checkEntryFor inv mats))

/-- The caller-input error both crafting handlers can answer with. -/
inductive ApiError where
  | invalidInventory : ApiError
deriving DecidableEq, Repr

/-- The full `POST /api/crafting/check-possibilities` handler: a 400 response
when the built inventory is empty although the supplied array was not. -/
def checkPossibilitiesEndpoint (recipes : List Recipe) (mats : List MaterialLine)
    (availableMaterials : List InvEntry) : Except ApiError (List CraftableItem) :=
  let inv := buildInventory availableMaterials
  if inv = [] ∧ availableMaterials ≠ [] then .error .invalidInventory
  else .ok (checkPossibilities recipes mats inv)

/-- One element of `materials_analysis` in an analyze-potential-crafts
result. -/
structure MaterialAnalysis where
  material_name : String
  material_type : String
  quantity_needed_per_craft : Nat
  user_has_quantity : Nat
  quantity_missing_for_one_craft : Nat
deriving DecidableEq, Repr

/-- One element of the `analysisResults` response array. -/
structure CraftAnalysis where
  recipe_id : Nat
  recipe_name : String
  quantity_produced_per_craft : Nat
  materials_analysis : List MaterialAnalysis
  craftable_now_count : Crafts
deriving DecidableEq, Repr

/-- `craftable_now_count` of `POST /api/crafting/analyze-potential-crafts`
(server.js lines 545–601).  The single pass over the lines clears
`canCraftAnyWithCurrentMaterials` on any shortfall and takes the minimum of
`Math.floor(userHasQty / quantity)` over the lines with positive quantity
(the `quantity === 0` branch leaves the count unchanged).  Afterwards:
a shortfall forces 0; no lines means `Infinity`; if the count is still
`Infinity` although lines exist (all quantities 0), the handler reruns the
check-possibilities loop and coerces a still-`Infinity` result to 0. -/
def analyzeCount (inv : Inventory) (lines : List MaterialLine) : Crafts :=
  let canCraft := lines.all (fun m => m.quantity ≤ invQty inv m.material_name)
  let c0 := lines.foldl
    (fun acc m =>
      if 0 < m.quantity then
        Crafts.min acc (.fin (invQty inv m.material_name / m.quantity))
      else acc)
    .inf
  if ¬ canCraft then .fin 0
  else if lines.isEmpty then .inf
  else if c0 = .inf then
    match checkMaxCrafts inv lines .inf with
    | .inf => .fin 0
    | .fin t => .fin t
  else c0

/-- The body of `POST /api/crafting/analyze-potential-crafts` after the
inventory was built: a recipe is skipped only when the inventory map is
non-empty and none of the recipe's material names (lower-cased) is a key of
it; the response is in catalogue order (no sort). -/
def analyzeUses (inv : Inventory) (lines : List MaterialLine) : Bool :=
  if inv.isEmpty then true
  else lines.any (fun m => invHasKey inv m.material_name)

def analyzeEntryFor (inv : Inventory) (mats : List MaterialLine) (r : Recipe) :
    Option CraftAnalysis :=
  let lines := mats.filter (fun m => m.recipe_id == r.id)
  if analyzeUses inv lines then
    some { recipe_id := r.id, recipe_name := r.name,
           quantity_produced_per_craft := r.quantity_produced,
           materials_analysis := lines.map (fun l =>
             { material_name := l.material_name,
               material_type := l.material_type,
               quantity_needed_per_craft := l.quantity,
               user_has_quantity := invQty inv l.material_name,
               quantity_missing_for_one_craft :=
                 l.quantity - invQty inv l.material_name }),
           craftable_now_count := analyzeCount inv lines }
  else none

/-- The `analysisResults` array: `analyzeEntryFor` per recipe, in catalogue
order (this handler does not sort). -/
def analyzePotentialCrafts (recipes : List Recipe) (mats : List MaterialLine)
    (inv : Inventory) : List CraftAnalysis :=
  recipes.filterMap (analyzeEntryFor inv mats)

/-- The full `POST /api/crafting/analyze-potential-crafts` handler, including
its 400 response (same inventory validation as check-possibilities). -/
def analyzePotentialCraftsEndpoint (recipes : List Recipe)
    (mats : List MaterialLine) (userMaterials : List InvEntry) :
    Except ApiError (List CraftAnalysis) :=
  let inv := buildInventory userMaterials
  if inv = [] ∧ userMaterials ≠ [] then .error .invalidInventory
  else .ok (analyzePotentialCrafts recipes mats inv)

/-- One element of the `profitableItems` response of
`GET /api/items/most-profitable-npc`. -/
structure ProfitItem where
  id : Nat
  name : String
  quantity_produced : Nat
  npc_sell_price_per_unit : Nat
  total_revenue_npc : Nat
  total_material_cost_npc : Nat
  profit_npc : Int
deriving DecidableEq, Repr

/-- The body of `GET /api/items/most-profitable-npc` (server.js lines
290–308): per recipe, material cost sums `quantity * (default_npc_price || 0)`
over the lines whose `material_type` is not exactly `'profession'`; revenue is
`(npc_sell_price || 0) * (quantity_produced || 1)` — the `|| 1` maps both a
missing and a zero `quantity_produced` to 1; profit is their (possibly
negative) difference; the list is sorted by profit descending
(`sort((a,b) => b.profit_npc - a.profit_npc)`, stable). -/
def profitEntryFor (mats : List MaterialLine) (r : Recipe) : ProfitItem :=
  let lines := mats.filter (fun m => m.recipe_id == r.id)
  let cost := (lines.filter (fun m => m.material_type != "profession")).foldl
    (fun acc m => acc + m.quantity * m.default_npc_price) 0
  let revenue :=
    r.npc_sell_price * (if r.quantity_produced = 0 then 1 else r.quantity_produced)
  { id := r.id, name := r.name, quantity_produced := r.quantity_produced,
    npc_sell_price_per_unit := r.npc_sell_price,
    total_revenue_npc := revenue, total_material_cost_npc := cost,
    profit_npc := (revenue : Int) - (cost : Int) }

def mostProfitableNpc (recipes : List Recipe) (mats : List MaterialLine) :
    List ProfitItem :=
  stableSort (fun a b => decide (b.profit_npc ≤ a.profit_npc))
    (recipes.map (profitEntryFor mats))

/-- The four values accepted for `matchProfile` by
`GET /api/items/filter-by-material-profile` (any other value is rejected with
a 400 before the filtering runs). -/
inductive MatchProfile where
  | exclusive | contains_any | contains_all | not_contains_any
deriving DecidableEq, Repr

/-- The per-recipe predicate of `GET /api/items/filter-by-material-profile`
(server.js lines 339–357).  `typesArray` is the query's comma-separated list,
already lower-cased, trimmed and cleaned of empties (the handler 400s when it
ends up empty). -/
def profileMatches (typesArray : List String) (profile : MatchProfile)
    (recipeMats : List MaterialLine) : Bool :=
  if recipeMats.isEmpty &&
      (profile == .exclusive || profile == .not_contains_any) then
    profile == .not_contains_any
  else if recipeMats.isEmpty then false
  else
    match profile with
    | .exclusive =>
      recipeMats.all (fun m => typesArray.contains (lowerStr m.material_type))
    | .contains_any =>
      recipeMats.any (fun m => typesArray.contains (lowerStr m.material_type))
    | .contains_all =>
      typesArray.all (fun t =>
        recipeMats.any (fun m => lowerStr m.material_type == t))
    | .not_contains_any =>
      !recipeMats.any (fun m => typesArray.contains (lowerStr m.material_type))

/-- The recipe list returned by `GET /api/items/filter-by-material-profile`
(the handler then re-attaches each kept recipe's material rows, which adds no
information about which recipes are kept). -/
def filterByMaterialProfile (recipes : List Recipe) (mats : List MaterialLine)
    (typesArray : List String) (profile : MatchProfile) : List Recipe :=
  recipes.filter (fun r =>
    profileMatches typesArray profile
      (mats.filter (fun m => m.recipe_id == r.id)))

/-- SQLite `LIKE` matching (no ESCAPE clause): `%` matches any sequence,
`_` any single character; other pattern characters match themselves.  Both
sides have been passed through `LOWER`, so plain characters compare by
equality. -/
def likeMatch : List Char → List Char → Bool
  | [], s => s.isEmpty
  | p :: ps, s =>
    if p = '%' then
      likeMatch ps s ||
        (match s with
         | [] => false
         | _ :: cs => likeMatch (p :: ps) cs)
    else
      match s with
      | [] => false
      | c :: cs =>
        if p = '_' then likeMatch ps cs
        else p == c && likeMatch ps cs
termination_by p s => (s.length, p.length)

/-- One row of the `GET /api/materials/usage-summary` response.
`default_npc_price` models the `MAX(...)` subquery column, which the SQL only
selects when a `materialName` query is present; both an absent column and an
SQL `NULL` (no non-profession row to take the maximum over) are `none`. -/
structure UsageRow where
  material_name : String
  material_type : String
  total_quantity_needed : Nat
  used_in_recipes_count : Nat
  default_npc_price : Option Nat
deriving DecidableEq, Repr

/-- `WHERE` clause of the usage-summary query: `LOWER(material_name) LIKE
LOWER('%' || q || '%')` when a name query is present, and
`material_type IN (...)` when the parsed type list is non-empty (the handler
adds no condition for an empty list). -/
def usageRowPasses (nameQuery : Option String) (typesFilter : List String)
    (m : MaterialLine) : Bool :=
  (match nameQuery with
   | some q =>
     likeMatch ('%' :: (lowerStr q).data ++ ['%']) (lowerStr m.material_name).data
   | none => true) &&
  (typesFilter.isEmpty || typesFilter.contains m.material_type)

/-- `MAX(default_npc_price)` over a list of rows, `none` when empty
(SQL `NULL`). -/
def maxPriceOf (rows : List MaterialLine) : Option Nat :=
  rows.foldl (fun acc m =>
    match acc with
    | none => some m.default_npc_price
    | some p => some (Nat.max p m.default_npc_price)) none

/-- The usage-summary query: filtered rows are grouped by the exact pair
`(material_name, material_type)` (`GROUP BY material_name, material_type`;
both columns are `TEXT` with the default BINARY collation, so the grouping is
case-sensitive), `SUM(quantity)` and `COUNT(DISTINCT recipe_id)` are taken
per group, the price subquery (scanning the whole `recipe_materials` table)
is attached when a name query is present, and the rows are ordered by
`used_in_recipes_count DESC, total_quantity_needed DESC, material_name ASC`. -/
def usageGroupRow (mats : List MaterialLine) (nameQuery : Option String)
    (typesFilter : List String) (k : String × String) : UsageRow :=
  let grp := (mats.filter (usageRowPasses nameQuery typesFilter)).filter
    (fun m => m.material_name == k.1 && m.material_type == k.2)
  { material_name := k.1, material_type := k.2,
    total_quantity_needed := (grp.map (fun m => m.quantity)).sum,
    used_in_recipes_count := ((grp.map (fun m => m.recipe_id)).dedup).length,
    default_npc_price :=
      match nameQuery with
      | some _ =>
        maxPriceOf (mats.filter (fun m2 =>
          lowerStr m2.material_name == lowerStr k.1 &&
          m2.material_type == k.2 && m2.material_type != "profession"))
      | none => none }

/-- `ORDER BY used_in_recipes_count DESC, total_quantity_needed DESC,
material_name ASC` as an "`a` may stay before `b`" comparison. -/
def usageOrder (a b : UsageRow) : Bool :=
  b.used_in_recipes_count < a.used_in_recipes_count ||
    (b.used_in_recipes_count == a.used_in_recipes_count &&
      (b.total_quantity_needed < a.total_quantity_needed ||
        (b.total_quantity_needed == a.total_quantity_needed &&
          decide (a.material_name ≤ b.material_name))))

def usageSummary (mats : List MaterialLine) (nameQuery : Option String)
    (typesFilter : List String) : List UsageRow :=
  let rows := mats.filter (usageRowPasses nameQuery typesFilter)
  let keys := (rows.map (fun m => (m.material_name, m.material_type))).dedup
  stableSort usageOrder (keys.map (usageGroupRow mats nameQuery typesFilter))

/-! ## General lemmas about the embedding's building blocks -/

theorem mem_insertLe {le : α → α → Bool} {a x : α} {l : List α} :
    x ∈ insertLe le a l ↔ x = a ∨ x ∈ l := by
  induction l with
  | nil => simp [insertLe]
  | cons b bs ih =>
    by_cases h : le a b = true
    · simp [insertLe, h]
    · simp [insertLe, h, ih]
      tauto

theorem mem_stableSort {le : α → α → Bool} {x : α} {l : List α} :
    x ∈ stableSort le l ↔ x ∈ l := by
  induction l with
  | nil => simp [stableSort]
  | cons a rest ih => simp [stableSort, mem_insertLe, ih]

theorem pairwise_insertLe {le : α → α → Bool}
    (htrans : ∀ a b c, le a b = true → le b c = true → le a c = true)
    (htotal : ∀ a b, le a b = true ∨ le b a = true)
    {l : List α} {a : α} (hl : l.Pairwise (fun x y => le x y = true)) :
    (insertLe le a l).Pairwise (fun x y => le x y = true) := by
  induction l with
  | nil => simp [insertLe]
  | cons b bs ih =>
    rcases List.pairwise_cons.mp hl with ⟨hb, hbs⟩
    by_cases h : le a b = true
    · rw [insertLe, if_pos h]
      refine List.pairwise_cons.mpr ⟨?_, hl⟩
      intro x hx
      rcases List.mem_cons.mp hx with rfl | hx
      · exact h
      · exact htrans a b x h (hb x hx)
    · rw [insertLe, if_neg h]
      refine List.pairwise_cons.mpr ⟨?_, ih hbs⟩
      intro x hx
      rcases mem_insertLe.mp hx with rfl | hx
      · rcases htotal x b with hab | hba
        · exact absurd hab h
        · exact hba
      · exact hb x hx

theorem pairwise_stableSort {le : α → α → Bool}
    (htrans : ∀ a b c, le a b = true → le b c = true → le a c = true)
    (htotal : ∀ a b, le a b = true ∨ le b a = true) (l : List α) :
    (stableSort le l).Pairwise (fun x y => le x y = true) := by
  induction l with
  | nil => simp [stableSort]
  | cons a rest ih => exact pairwise_insertLe htrans htotal ih

theorem Crafts.le_total (a b : Crafts) :
    Crafts.le a b = true ∨ Crafts.le b a = true := by
  cases a <;> cases b <;> simp [Crafts.le]
  omega

theorem Crafts.le_trans (a b c : Crafts) (hab : Crafts.le a b = true)
    (hbc : Crafts.le b c = true) : Crafts.le a c = true := by
  cases a <;> cases b <;> cases c <;> simp_all [Crafts.le]
  omega

theorem crafts_foldl_fin (ns : List Nat) (a : Nat) :
    ns.foldl (fun acc n => Crafts.min acc (.fin n)) (.fin a)
      = .fin (ns.foldl Nat.min a) := by
  induction ns generalizing a with
  | nil => rfl
  | cons n rest ih => simpa [Crafts.min] using ih (Nat.min a n)

theorem crafts_foldl_inf (n : Nat) (rest : List Nat) :
    (n :: rest).foldl (fun acc m => Crafts.min acc (.fin m)) .inf
      = .fin (rest.foldl Nat.min n) := by
  simpa [Crafts.min] using crafts_foldl_fin rest n

theorem foldl_nat_min_spec (ns : List Nat) (a : Nat) :
    (ns.foldl Nat.min a = a ∨ ns.foldl Nat.min a ∈ ns) ∧
      ns.foldl Nat.min a ≤ a ∧ ∀ x ∈ ns, ns.foldl Nat.min a ≤ x := by
  induction ns generalizing a with
  | nil => exact ⟨Or.inl rfl, Nat.le_refl a, by simp⟩
  | cons n rest ih =>
    rcases ih (Nat.min a n) with ⟨hmem, hle, hbound⟩
    have hfold : (n :: rest).foldl Nat.min a = rest.foldl Nat.min (Nat.min a n) := rfl
    refine ⟨?_, ?_, ?_⟩
    · rcases hmem with h | h
      · rcases Nat.le_total a n with han | hna
        · left
          rw [hfold, h]
          exact Nat.min_eq_left han
        · right
          have hmin : Nat.min a n = n := Nat.min_eq_right hna
          rw [hfold, h, hmin]
          exact List.mem_cons_self n rest
      · right
        rw [hfold]
        exact List.mem_cons_of_mem n h
    · calc (n :: rest).foldl Nat.min a = rest.foldl Nat.min (Nat.min a n) := rfl
        _ ≤ Nat.min a n := hle
        _ ≤ a := Nat.min_le_left a n
    · intro x hx
      rcases List.mem_cons.mp hx with rfl | hx
      · calc (x :: rest).foldl Nat.min a = rest.foldl Nat.min (Nat.min a x) := rfl
          _ ≤ Nat.min a x := hle
          _ ≤ x := Nat.min_le_right a x
      · exact hbound x hx

/-! ## Lemmas about the check-possibilities loop -/

theorem checkMaxCrafts_of_shortfall (inv : Inventory) (lines : List MaterialLine)
    (acc : Crafts)
    (h : ∃ m ∈ lines, invQty inv m.material_name < m.quantity) :
    checkMaxCrafts inv lines acc = .fin 0 := by
  induction lines generalizing acc with
  | nil => simp at h
  | cons m rest ih =>
    by_cases hm : invQty inv m.material_name < m.quantity
    · simp [checkMaxCrafts, hm]
    · have hrest : ∃ m' ∈ rest, invQty inv m'.material_name < m'.quantity := by
        rcases h with ⟨m', hm', hlt⟩
        rcases List.mem_cons.mp hm' with rfl | hm'
        · exact absurd hlt hm
        · exact ⟨m', hm', hlt⟩
      by_cases hq : m.quantity = 0
      · simpa [checkMaxCrafts, hm, hq] using ih _ hrest
      · simpa [checkMaxCrafts, hm, hq] using ih _ hrest

theorem checkMaxCrafts_no_shortfall (inv : Inventory) (lines : List MaterialLine)
    (acc : Crafts)
    (h : ∀ m ∈ lines, m.quantity ≤ invQty inv m.material_name) :
    checkMaxCrafts inv lines acc =
      ((lines.filter (fun m => decide (0 < m.quantity))).map
          (fun m => invQty inv m.material_name / m.quantity)).foldl
        (fun a n => Crafts.min a (.fin n)) acc := by
  induction lines generalizing acc with
  | nil => rfl
  | cons m rest ih =>
    have hm : ¬ invQty inv m.material_name < m.quantity :=
      Nat.not_lt.mpr (h m (List.mem_cons_self m rest))
    have hrest : ∀ m' ∈ rest, m'.quantity ≤ invQty inv m'.material_name :=
      fun m' hm' => h m' (List.mem_cons_of_mem m hm')
    by_cases hq : m.quantity = 0
    · simpa [checkMaxCrafts, hm, hq] using ih _ hrest
    · have hq' : 0 < m.quantity := Nat.pos_of_ne_zero hq
      simpa [checkMaxCrafts, hm, hq, hq'] using ih _ hrest

theorem checkMaxCrafts_filter_pos (inv : Inventory) (lines : List MaterialLine)
    (acc : Crafts) :
    checkMaxCrafts inv lines acc =
      checkMaxCrafts inv (lines.filter (fun m => decide (0 < m.quantity))) acc := by
  induction lines generalizing acc with
  | nil => rfl
  | cons m rest ih =>
    by_cases hq : m.quantity = 0
    · have hm : ¬ invQty inv m.material_name < m.quantity := by
        rw [hq]; exact Nat.not_lt_zero _
      simpa [checkMaxCrafts, hm, hq] using ih acc
    · have hq' : 0 < m.quantity := Nat.pos_of_ne_zero hq
      by_cases hm : invQty inv m.material_name < m.quantity
      · simp [checkMaxCrafts, hm, hq', List.filter_cons]
      · simpa [checkMaxCrafts, hm, hq, hq', List.filter_cons] using
          ih (Crafts.min acc (.fin (invQty inv m.material_name / m.quantity)))

theorem checkEntryFor_id {inv : Inventory} {mats : List MaterialLine}
    {r : Recipe} {e : CraftableItem} (h : checkEntryFor inv mats r = some e) :
    e.recipe_id = r.id := by
  simp only [checkEntryFor] at h
  split at h
  · cases h; rfl
  · split at h
    · split at h
      · cases h; rfl
      · cases h
    · cases h

theorem checkEntryFor_max_ne_zero {inv : Inventory} {mats : List MaterialLine}
    {r : Recipe} {e : CraftableItem} (h : checkEntryFor inv mats r = some e) :
    e.max_crafts_possible ≠ .fin 0 := by
  simp only [checkEntryFor] at h
  split at h
  · cases h; simp
  · split at h
    · rename_i m hm
      split at h
      · rename_i hpos
        cases h
        simp only []
        intro hc
        cases hc
        omega
      · cases h
    · cases h

theorem checkEntryFor_eq_none_of_shortfall (inv : Inventory)
    (ms : List MaterialLine) (r : Recipe)
    (hsf : ∃ m ∈ ms.filter (fun m => m.recipe_id == r.id),
      invQty inv m.material_name < m.quantity) :
    checkEntryFor inv ms r = none := by
  have hne : ms.filter (fun m => m.recipe_id == r.id) ≠ [] := by
    rcases hsf with ⟨m, hm, _⟩
    exact List.ne_nil_of_mem hm
  simp only [checkEntryFor, checkMaxCrafts_of_shortfall inv _ _ hsf]
  simp [List.isEmpty_iff, hne]

theorem checkEntryFor_eq_some_of_fin (inv : Inventory) (ms : List MaterialLine)
    (r : Recipe) (hne : ms.filter (fun m => m.recipe_id == r.id) ≠ [])
    {M : Nat}
    (hM : checkMaxCrafts inv (ms.filter (fun m => m.recipe_id == r.id)) .inf
      = .fin M)
    (hMpos : 0 < M) :
    checkEntryFor inv ms r = some
      { recipe_id := r.id, recipe_name := r.name,
        quantity_produced_per_craft := r.quantity_produced,
        max_crafts_possible := .fin M, unbounded := none,
        total_items_producible := some (M * r.quantity_produced),
        materials_needed := (ms.filter (fun m => m.recipe_id == r.id)).map
          (fun l =>
            { material_name := l.material_name,
              quantity_per_craft := l.quantity,
              total_quantity_needed_for_max_crafts := l.quantity * M,
              user_has_quantity := invQty inv l.material_name }) } := by
  simp only [checkEntryFor, hM]
  simp [List.isEmpty_iff, hne, hMpos]

theorem checkEntryFor_eq_some_inf (inv : Inventory) (ms : List MaterialLine)
    (r : Recipe) (hempty : ms.filter (fun m => m.recipe_id == r.id) = []) :
    checkEntryFor inv ms r = some
      { recipe_id := r.id, recipe_name := r.name,
        quantity_produced_per_craft := r.quantity_produced,
        max_crafts_possible := .inf, unbounded := none,
        total_items_producible := none, materials_needed := [] } := by
  simp [checkEntryFor, hempty]

theorem mem_checkPossibilities {rs : List Recipe} {ms : List MaterialLine}
    {inv : Inventory} {e : CraftableItem} :
    e ∈ checkPossibilities rs ms inv ↔
      ∃ r ∈ rs, checkEntryFor inv ms r = some e := by
  rw [checkPossibilities, mem_stableSort]
  exact List.mem_filterMap

/-! ## Claim theorems -/

/-- **C1.** For every recipe with at least one material line and every
inventory, the feasibility check computes `max_crafts_possible = 0` when any
line's held quantity (0 if absent, names compared case-insensitively) is
below its required quantity — such a recipe is excluded from the result —
and otherwise as the minimum over the (positive-quantity) lines of
`⌊held / required⌋`; no entry of the result carries a zero count. -/
theorem check_possibilities_feasibility_rule
    (rs : List Recipe) (ms : List MaterialLine) (inv : Inventory) (r : Recipe)
    (hr : r ∈ rs) (hnodup : (rs.map Recipe.id).Nodup)
    (hne : ms.filter (fun m => m.recipe_id == r.id) ≠ []) :
    (∀ e ∈ checkPossibilities rs ms inv, e.max_crafts_possible ≠ .fin 0) ∧
    ((∃ m ∈ ms.filter (fun m => m.recipe_id == r.id),
        invQty inv m.material_name < m.quantity) →
      ∀ e ∈ checkPossibilities rs ms inv, e.recipe_id ≠ r.id) ∧
    ((∀ m ∈ ms.filter (fun m => m.recipe_id == r.id),
        m.quantity ≤ invQty inv m.material_name) →
      (∃ m ∈ ms.filter (fun m => m.recipe_id == r.id), 0 < m.quantity) →
      ∃ e ∈ checkPossibilities rs ms inv, e.recipe_id = r.id ∧
        ∃ M, e.max_crafts_possible = .fin M ∧ 0 < M ∧
          (∀ m ∈ ms.filter (fun m => m.recipe_id == r.id), 0 < m.quantity →
            M ≤ invQty inv m.material_name / m.quantity) ∧
          (∃ m ∈ ms.filter (fun m => m.recipe_id == r.id), 0 < m.quantity ∧
            M = invQty inv m.material_name / m.quantity)) := by
  refine ⟨?_, ?_, ?_⟩
  · intro e he
    obtain ⟨r', _, hf⟩ := mem_checkPossibilities.mp he
    exact checkEntryFor_max_ne_zero hf
  · intro hsf e he heq
    obtain ⟨r', hr', hf⟩ := mem_checkPossibilities.mp he
    have hid : e.recipe_id = r'.id := checkEntryFor_id hf
    have : r' = r := List.inj_on_of_nodup_map hnodup hr' hr (by rw [← hid, heq])
    subst this
    rw [checkEntryFor_eq_none_of_shortfall inv ms r' hsf] at hf
    cases hf
  · intro hall hpos
    have hfold := checkMaxCrafts_no_shortfall inv
      (ms.filter (fun m => m.recipe_id == r.id)) .inf hall
    obtain ⟨m0, hm0, hq0⟩ := hpos
    have hm0f : m0 ∈ (ms.filter (fun m => m.recipe_id == r.id)).filter
        (fun m => decide (0 < m.quantity)) :=
      List.mem_filter.mpr ⟨hm0, by simpa using hq0⟩
    have hns_ne :
        ((ms.filter (fun m => m.recipe_id == r.id)).filter
            (fun m => decide (0 < m.quantity))).map
          (fun m => invQty inv m.material_name / m.quantity) ≠ [] :=
      List.ne_nil_of_mem (List.mem_map_of_mem _ hm0f)
    obtain ⟨n0, ns', hcons⟩ := List.exists_cons_of_ne_nil hns_ne
    have hMfin : checkMaxCrafts inv (ms.filter (fun m => m.recipe_id == r.id))
        .inf = .fin (ns'.foldl Nat.min n0) := by
      rw [hfold, hcons]
      exact crafts_foldl_inf n0 ns'
    obtain ⟨hmem0, hle0, hbound0⟩ := foldl_nat_min_spec ns' n0
    have hMmem : ns'.foldl Nat.min n0 ∈
        ((ms.filter (fun m => m.recipe_id == r.id)).filter
            (fun m => decide (0 < m.quantity))).map
          (fun m => invQty inv m.material_name / m.quantity) := by
      rw [hcons]
      rcases hmem0 with h | h
      · rw [h]; exact List.mem_cons_self n0 ns'
      · exact List.mem_cons_of_mem n0 h
    obtain ⟨mM, hmM, hMval⟩ := List.mem_map.mp hMmem
    obtain ⟨hmMlines, hmMq⟩ := List.mem_filter.mp hmM
    have hmMq' : 0 < mM.quantity := by simpa using hmMq
    have hMpos : 0 < ns'.foldl Nat.min n0 := by
      rw [← hMval]
      exact (Nat.one_le_div_iff hmMq').mpr (hall mM hmMlines)
    refine ⟨_, mem_checkPossibilities.mpr
      ⟨r, hr, checkEntryFor_eq_some_of_fin inv ms r hne hMfin hMpos⟩,
      rfl, ns'.foldl Nat.min n0, rfl, hMpos, ?_, ?_⟩
    · intro m hm hq
      have hx : invQty inv m.material_name / m.quantity ∈
          ((ms.filter (fun m => m.recipe_id == r.id)).filter
              (fun m => decide (0 < m.quantity))).map
            (fun m => invQty inv m.material_name / m.quantity) :=
        List.mem_map_of_mem _ (List.mem_filter.mpr ⟨hm, by simpa using hq⟩)
      rw [hcons] at hx
      rcases List.mem_cons.mp hx with h | h
      · rw [h]; exact hle0
      · exact hbound0 _ h
    · exact ⟨mM, hmMlines, hmMq', hMval.symm⟩

/-- Witness for C1 at the spec's Potion scenario: recipe needs Herb×2 and
Vial×1; the inventory holds Herb 7 and Vial 3, so the computed count is
`min (7/2) (3/1) = 3`. -/
theorem check_possibilities_feasibility_rule_witness :
    ∃ e ∈ checkPossibilities [⟨1, "Potion", 1, 0⟩]
        [⟨1, "Herb", 2, "drop", 0⟩, ⟨1, "Vial", 1, "buy", 0⟩]
        [("herb", 7), ("vial", 3)],
      e.recipe_id = (1 : Nat) ∧
        ∃ M, e.max_crafts_possible = .fin M ∧ 0 < M ∧
          (∀ m ∈ (([⟨1, "Herb", 2, "drop", 0⟩, ⟨1, "Vial", 1, "buy", 0⟩] :
              List MaterialLine).filter (fun m => m.recipe_id == 1)),
            0 < m.quantity →
            M ≤ invQty [("herb", 7), ("vial", 3)] m.material_name / m.quantity) ∧
          (∃ m ∈ (([⟨1, "Herb", 2, "drop", 0⟩, ⟨1, "Vial", 1, "buy", 0⟩] :
              List MaterialLine).filter (fun m => m.recipe_id == 1)),
            0 < m.quantity ∧
            M = invQty [("herb", 7), ("vial", 3)] m.material_name / m.quantity) :=
  (check_possibilities_feasibility_rule
    [⟨1, "Potion", 1, 0⟩]
    [⟨1, "Herb", 2, "drop", 0⟩, ⟨1, "Vial", 1, "buy", 0⟩]
    [("herb", 7), ("vial", 3)]
    ⟨1, "Potion", 1, 0⟩ (by decide) (by decide) (by decide)).2.2
    (by decide) (by decide)

/-- **C2 (counterexample).** For the zero-material recipe "Empty" and an
empty inventory, the single feasibility entry carries no `unbounded`
property at all and uses the numeric `Infinity` sentinel as its
`max_crafts_possible` — not an `unbounded: true` flag in place of a numeric
infinity as the claim states. -/
theorem zero_material_infinity_sentinel_cex :
    (checkPossibilities [⟨1, "Empty", 1, 0⟩] [] []).map
      (fun e => (e.unbounded, e.max_crafts_possible)) = [(none, Crafts.inf)] := by
  decide

/-- **C2 (amended).** For every recipe with zero material lines and every
inventory, the feasibility result contains an entry for it whose
`max_crafts_possible` is the numeric `Infinity` sentinel, which carries no
`unbounded` flag, and which omits a finite `total_items_producible` count. -/
theorem zero_material_unbounded_inclusion
    (rs : List Recipe) (ms : List MaterialLine) (inv : Inventory) (r : Recipe)
    (hr : r ∈ rs) (hempty : ms.filter (fun m => m.recipe_id == r.id) = []) :
    ∃ e ∈ checkPossibilities rs ms inv, e.recipe_id = r.id ∧
      e.max_crafts_possible = .inf ∧ e.unbounded = none ∧
      e.total_items_producible = none :=
  ⟨_, mem_checkPossibilities.mpr
      ⟨r, hr, checkEntryFor_eq_some_inf inv ms r hempty⟩,
    rfl, rfl, rfl, rfl⟩

/-- Witness for the amended C2: the zero-material recipe is reported with the
`Infinity` sentinel even against a non-empty inventory. -/
theorem zero_material_unbounded_inclusion_witness :
    ∃ e ∈ checkPossibilities [⟨1, "Empty", 2, 5⟩] [⟨2, "Herb", 1, "drop", 0⟩]
        [("herb", 4)],
      e.recipe_id = (1 : Nat) ∧ e.max_crafts_possible = .inf ∧
        e.unbounded = none ∧ e.total_items_producible = none :=
  zero_material_unbounded_inclusion [⟨1, "Empty", 2, 5⟩]
    [⟨2, "Herb", 1, "drop", 0⟩] [("herb", 4)] ⟨1, "Empty", 2, 5⟩
    (by decide) (by decide)

/-! ## Lemmas about the analysis count -/

theorem analyzeFold_filter (inv : Inventory) (lines : List MaterialLine)
    (acc : Crafts) :
    lines.foldl
        (fun acc m =>
          if 0 < m.quantity then
            Crafts.min acc (.fin (invQty inv m.material_name / m.quantity))
          else acc) acc =
      (lines.filter (fun m => decide (0 < m.quantity))).foldl
        (fun acc m =>
          if 0 < m.quantity then
            Crafts.min acc (.fin (invQty inv m.material_name / m.quantity))
          else acc) acc := by
  induction lines generalizing acc with
  | nil => rfl
  | cons m rest ih =>
    by_cases hq : 0 < m.quantity
    · simp only [List.foldl_cons, List.filter_cons, decide_eq_true_eq,
        if_pos hq]
      exact ih _
    · simp only [List.foldl_cons, List.filter_cons, decide_eq_true_eq,
        if_neg hq]
      exact ih acc

theorem fold_pos_eq_map_min (inv : Inventory) (L : List MaterialLine)
    (acc : Crafts) (hL : ∀ m ∈ L, 0 < m.quantity) :
    L.foldl
        (fun acc m =>
          if 0 < m.quantity then
            Crafts.min acc (.fin (invQty inv m.material_name / m.quantity))
          else acc) acc =
      (L.map (fun m => invQty inv m.material_name / m.quantity)).foldl
        (fun a n => Crafts.min a (.fin n)) acc := by
  induction L generalizing acc with
  | nil => rfl
  | cons m rest ih =>
    have hq : 0 < m.quantity := hL m (List.mem_cons_self m rest)
    simp only [List.foldl_cons, List.map_cons, if_pos hq]
    exact ih _ (fun m' hm' => hL m' (List.mem_cons_of_mem m hm'))

/-- Closed form of `analyzeCount`: a shortfall forces 0; otherwise a recipe
without lines is unbounded, a recipe whose lines all have quantity 0 gets 0
(the handler's final fix-up coerces the leftover `Infinity` to 0), and any
other recipe gets the same count as the check-possibilities loop. -/
theorem analyzeCount_eq (inv : Inventory) (lines : List MaterialLine) :
    analyzeCount inv lines =
      if ∃ m ∈ lines, invQty inv m.material_name < m.quantity then .fin 0
      else if lines = [] then .inf
      else if lines.filter (fun m => decide (0 < m.quantity)) = [] then .fin 0
      else checkMaxCrafts inv lines .inf := by
  by_cases hsf : ∃ m ∈ lines, invQty inv m.material_name < m.quantity
  · rw [if_pos hsf]
    have hcan :
        lines.all (fun m => decide (m.quantity ≤ invQty inv m.material_name))
          = false := by
      rcases hsf with ⟨m, hm, hlt⟩
      exact List.all_eq_false.mpr
        ⟨m, hm, by simp [decide_eq_false_iff_not, Nat.not_le, hlt]⟩
    simp [analyzeCount, hcan]
  · rw [if_neg hsf]
    have hall : ∀ m ∈ lines, m.quantity ≤ invQty inv m.material_name := by
      push_neg at hsf
      exact hsf
    have hcan :
        lines.all (fun m => decide (m.quantity ≤ invQty inv m.material_name))
          = true :=
      List.all_eq_true.mpr (fun m hm => decide_eq_true (hall m hm))
    by_cases hnil : lines = []
    · subst hnil
      simp [analyzeCount]
    · rw [if_neg hnil]
      have hposall : ∀ m ∈ lines.filter (fun m => decide (0 < m.quantity)),
          0 < m.quantity :=
        fun m hm => by simpa using (List.mem_filter.mp hm).2
      by_cases hpos : lines.filter (fun m => decide (0 < m.quantity)) = []
      · rw [if_pos hpos]
        have hck : checkMaxCrafts inv lines .inf = .inf := by
          rw [checkMaxCrafts_no_shortfall inv lines .inf hall, hpos]
          rfl
        have hc0 : lines.foldl
            (fun acc m =>
              if 0 < m.quantity then
                Crafts.min acc (.fin (invQty inv m.material_name / m.quantity))
              else acc) .inf = .inf := by
          rw [analyzeFold_filter, hpos]
          rfl
        simp [analyzeCount, hcan, hnil, hc0, hck, List.isEmpty_iff]
      · rw [if_neg hpos]
        obtain ⟨m0, pos', hcons⟩ := List.exists_cons_of_ne_nil hpos
        have hfoldval :
            ((lines.filter (fun m => decide (0 < m.quantity))).map
                (fun m => invQty inv m.material_name / m.quantity)).foldl
              (fun a n => Crafts.min a (.fin n)) .inf =
            .fin ((pos'.map
                (fun m => invQty inv m.material_name / m.quantity)).foldl
              Nat.min (invQty inv m0.material_name / m0.quantity)) := by
          rw [hcons, List.map_cons]
          exact crafts_foldl_inf _ _
        have hc0 : lines.foldl
            (fun acc m =>
              if 0 < m.quantity then
                Crafts.min acc (.fin (invQty inv m.material_name / m.quantity))
              else acc) .inf =
            .fin ((pos'.map
                (fun m => invQty inv m.material_name / m.quantity)).foldl
              Nat.min (invQty inv m0.material_name / m0.quantity)) := by
          rw [analyzeFold_filter, fold_pos_eq_map_min inv _ .inf hposall]
          exact hfoldval
        have hck : checkMaxCrafts inv lines .inf =
            .fin ((pos'.map
                (fun m => invQty inv m.material_name / m.quantity)).foldl
              Nat.min (invQty inv m0.material_name / m0.quantity)) := by
          rw [checkMaxCrafts_no_shortfall inv lines .inf hall]
          exact hfoldval
        simp [analyzeCount, hcan, hnil, hc0, hck, List.isEmpty_iff]

/-- **C3 (counterexample).** A recipe whose only material line has
quantity 0 is *excluded* from the feasibility result (the `Infinity` loop
value fails the `!== Infinity` push guard) and gets
`craftable_now_count = 0` from the analysis handler, although with the line
removed (the "no constraint" reading) the same recipe is included as
unbounded and analysed as unbounded.  So a quantity-0 line does change
inclusion and the computed count. -/
theorem zero_quantity_line_inclusion_cex :
    checkPossibilities [⟨1, "Z", 1, 0⟩] [⟨1, "a", 0, "drop", 0⟩] [("a", 5)]
        = [] ∧
    checkPossibilities [⟨1, "Z", 1, 0⟩] [] [("a", 5)] ≠ [] ∧
    analyzeCount [("a", 5)] [⟨1, "a", 0, "drop", 0⟩] = .fin 0 ∧
    analyzeCount [("a", 5)] [] = .inf := by
  decide

/-- **C3 (amended).** A quantity-0 material line is never used as a binding
divisor and never lowers a computed craft count: the check-possibilities
loop value is unchanged by dropping all quantity-0 lines, and so is the
analysis count provided at least one positive-quantity line remains.
However, a non-empty set of lines that are *all* quantity-0 is not treated
as unconstrained: the feasibility handler excludes such a recipe and the
analysis handler reports `craftable_now_count = 0`. -/
theorem zero_quantity_line_no_constraint
    (inv : Inventory) (lines : List MaterialLine) :
    (∀ acc, checkMaxCrafts inv lines acc =
      checkMaxCrafts inv (lines.filter (fun m => decide (0 < m.quantity))) acc) ∧
    (lines.filter (fun m => decide (0 < m.quantity)) ≠ [] →
      analyzeCount inv lines =
        analyzeCount inv (lines.filter (fun m => decide (0 < m.quantity)))) ∧
    (lines ≠ [] → lines.filter (fun m => decide (0 < m.quantity)) = [] →
      analyzeCount inv lines = .fin 0 ∧
      ∀ ms r, ms.filter (fun m => m.recipe_id == r.id) = lines →
        checkEntryFor inv ms r = none) := by
  have hsub : ∀ m ∈ lines.filter (fun m => decide (0 < m.quantity)), m ∈ lines :=
    fun m hm => (List.mem_filter.mp hm).1
  have hsf_iff : (∃ m ∈ lines, invQty inv m.material_name < m.quantity) ↔
      (∃ m ∈ lines.filter (fun m => decide (0 < m.quantity)),
        invQty inv m.material_name < m.quantity) := by
    constructor
    · rintro ⟨m, hm, hlt⟩
      refine ⟨m, List.mem_filter.mpr ⟨hm, ?_⟩, hlt⟩
      simpa using Nat.lt_of_le_of_lt (Nat.zero_le _) hlt
    · rintro ⟨m, hm, hlt⟩
      exact ⟨m, hsub m hm, hlt⟩
  refine ⟨checkMaxCrafts_filter_pos inv lines, ?_, ?_⟩
  · intro hpos
    have hnil : lines ≠ [] := by
      intro h
      subst h
      exact hpos rfl
    have hidem : (lines.filter (fun m => decide (0 < m.quantity))).filter
        (fun m => decide (0 < m.quantity)) =
        lines.filter (fun m => decide (0 < m.quantity)) :=
      List.filter_eq_self.mpr (fun m hm => (List.mem_filter.mp hm).2)
    rw [analyzeCount_eq, analyzeCount_eq]
    by_cases hsf : ∃ m ∈ lines, invQty inv m.material_name < m.quantity
    · rw [if_pos hsf, if_pos (hsf_iff.mp hsf)]
    · rw [if_neg hsf, if_neg (fun h => hsf (hsf_iff.mpr h)), if_neg hnil,
        if_neg hpos, if_neg hpos]
      rw [hidem]
      rw [if_neg hpos]
      exact checkMaxCrafts_filter_pos inv lines .inf
  · intro hnil hpos
    have hsf : ¬ ∃ m ∈ lines, invQty inv m.material_name < m.quantity := by
      intro h
      rw [hsf_iff, hpos] at h
      simp at h
    constructor
    · rw [analyzeCount_eq, if_neg hsf, if_neg hnil, if_pos hpos]
    · intro ms r hms
      have hck : checkMaxCrafts inv lines .inf = .inf := by
        rw [checkMaxCrafts_filter_pos inv lines .inf, hpos]
        rfl
      simp only [checkEntryFor, hms, hck]
      simp [List.isEmpty_iff, hnil]

/-- Witness for the amended C3: with lines `a×0, b×2` and 4 held units of
`b`, dropping the quantity-0 line changes neither the loop value nor the
analysis count; and the all-zero recipe `c×0` is excluded from feasibility
and analysed as 0. -/
theorem zero_quantity_line_no_constraint_witness :
    checkMaxCrafts [("b", 4)]
        [⟨1, "a", 0, "drop", 0⟩, ⟨1, "b", 2, "drop", 0⟩] .inf =
      checkMaxCrafts [("b", 4)]
        (([⟨1, "a", 0, "drop", 0⟩, ⟨1, "b", 2, "drop", 0⟩] :
          List MaterialLine).filter (fun m => decide (0 < m.quantity))) .inf ∧
    analyzeCount [("b", 4)] [⟨1, "a", 0, "drop", 0⟩, ⟨1, "b", 2, "drop", 0⟩] =
      analyzeCount [("b", 4)]
        (([⟨1, "a", 0, "drop", 0⟩, ⟨1, "b", 2, "drop", 0⟩] :
          List MaterialLine).filter (fun m => decide (0 < m.quantity))) ∧
    analyzeCount [("a", 5)] [⟨2, "c", 0, "drop", 0⟩] = .fin 0 ∧
    checkEntryFor [("a", 5)] [⟨2, "c", 0, "drop", 0⟩] ⟨2, "Z", 1, 0⟩ = none := by
  refine ⟨(zero_quantity_line_no_constraint [("b", 4)]
      [⟨1, "a", 0, "drop", 0⟩, ⟨1, "b", 2, "drop", 0⟩]).1 .inf,
    (zero_quantity_line_no_constraint [("b", 4)]
      [⟨1, "a", 0, "drop", 0⟩, ⟨1, "b", 2, "drop", 0⟩]).2.1 (by decide), ?_, ?_⟩
  · exact ((zero_quantity_line_no_constraint [("a", 5)]
      [⟨2, "c", 0, "drop", 0⟩]).2.2 (by decide) (by decide)).1
  · exact ((zero_quantity_line_no_constraint [("a", 5)]
      [⟨2, "c", 0, "drop", 0⟩]).2.2 (by decide) (by decide)).2
      [⟨2, "c", 0, "drop", 0⟩] ⟨2, "Z", 1, 0⟩ (by decide)

/-- **C4 (counterexample).** Two zero-material recipes stored in catalogue
order "b", "a" are both unbounded ties; the result keeps them in catalogue
order `["b", "a"]` although name-ascending order would put `"a"` first —
the comparator `b.max_crafts_possible - a.max_crafts_possible` never
consults the names. -/
theorem feasibility_sort_tie_cex :
    (checkPossibilities [⟨1, "b", 1, 0⟩, ⟨2, "a", 1, 0⟩] [] []).map
        (fun e => (e.recipe_name, e.max_crafts_possible)) =
      [("b", Crafts.inf), ("a", Crafts.inf)] ∧ ('a' : Char) < 'b' := by
  refine ⟨by decide, by decide⟩

/-- **C4 (amended).** The feasibility result is sorted by
`max_crafts_possible` descending in the JS number order — unbounded
(`Infinity`) entries before all finite ones; the sort is stable, so ties
keep catalogue order and no name tie-break is applied. -/
theorem feasibility_sort_descending
    (rs : List Recipe) (ms : List MaterialLine) (inv : Inventory) :
    (checkPossibilities rs ms inv).Pairwise
      (fun a b =>
        Crafts.le b.max_crafts_possible a.max_crafts_possible = true) := by
  unfold checkPossibilities
  refine pairwise_stableSort ?_ ?_ _
  · exact fun a b c hab hbc => Crafts.le_trans _ _ _ hbc hab
  · exact fun a b =>
      Crafts.le_total b.max_crafts_possible a.max_crafts_possible

/-- Witness for the amended C4 on a mixed catalogue (one unbounded recipe,
two bounded ones). -/
theorem feasibility_sort_descending_witness :
    (checkPossibilities [⟨1, "b", 1, 0⟩, ⟨2, "a", 2, 0⟩, ⟨3, "c", 1, 0⟩]
        [⟨2, "x", 2, "drop", 0⟩, ⟨3, "x", 5, "drop", 0⟩] [("x", 10)]).Pairwise
      (fun (a b : CraftableItem) =>
        Crafts.le b.max_crafts_possible a.max_crafts_possible = true) :=
  feasibility_sort_descending [⟨1, "b", 1, 0⟩, ⟨2, "a", 2, 0⟩, ⟨3, "c", 1, 0⟩]
    [⟨2, "x", 2, "drop", 0⟩, ⟨3, "x", 5, "drop", 0⟩] [("x", 10)]


/-! ## Analysis-variant inclusion (C5) -/

theorem analyzeUses_eq_false_iff (inv : Inventory) (lines : List MaterialLine) :
    analyzeUses inv lines = false ↔
      inv ≠ [] ∧ ∀ m ∈ lines, invHasKey inv m.material_name = false := by
  cases inv with
  | nil => simp [analyzeUses]
  | cons p rest =>
    simp only [analyzeUses, List.isEmpty_cons, Bool.false_eq_true, if_false,
      List.any_eq_false]
    constructor
    · intro h
      exact ⟨by simp, fun m hm => Bool.eq_false_iff.mpr (h m hm)⟩
    · rintro ⟨-, h⟩
      exact fun m hm => Bool.eq_false_iff.mp (h m hm)

theorem analyzeEntryFor_id {inv : Inventory} {ms : List MaterialLine}
    {r : Recipe} {e : CraftAnalysis} (h : analyzeEntryFor inv ms r = some e) :
    e.recipe_id = r.id := by
  simp only [analyzeEntryFor] at h
  split at h
  · cases h; rfl
  · cases h

theorem analyzeEntryFor_eq_none_iff (inv : Inventory) (ms : List MaterialLine)
    (r : Recipe) :
    analyzeEntryFor inv ms r = none ↔
      inv ≠ [] ∧ ∀ m ∈ ms.filter (fun m => m.recipe_id == r.id),
        invHasKey inv m.material_name = false := by
  simp only [analyzeEntryFor]
  by_cases hu : analyzeUses inv (ms.filter (fun m => m.recipe_id == r.id)) = true
  · rw [if_pos hu]
    constructor
    · intro h
      cases h
    · intro hrhs
      have hfalse := (analyzeUses_eq_false_iff inv _).mpr hrhs
      rw [hfalse] at hu
      cases hu
  · rw [if_neg hu]
    have hf : analyzeUses inv (ms.filter (fun m => m.recipe_id == r.id))
        = false := Bool.eq_false_iff.mpr hu
    constructor
    · intro _
      exact (analyzeUses_eq_false_iff inv _).mp hf
    · intro _
      rfl

/-- **C5.** A recipe is analysed by the analyze-potential-crafts handler iff
the caller's (built) inventory is empty, or some of the recipe's material
lines has its lower-cased name among the inventory keys; recipes without
such an overlap against a non-empty inventory are excluded. -/
theorem analyze_inclusion_iff
    (rs : List Recipe) (ms : List MaterialLine) (inv : Inventory) (r : Recipe)
    (hr : r ∈ rs) (hnodup : (rs.map Recipe.id).Nodup) :
    (∃ e ∈ analyzePotentialCrafts rs ms inv, e.recipe_id = r.id) ↔
      (inv = [] ∨ ∃ m ∈ ms.filter (fun m => m.recipe_id == r.id),
        invHasKey inv m.material_name = true) := by
  constructor
  · rintro ⟨e, he, heq⟩
    obtain ⟨r', hr', hf⟩ := List.mem_filterMap.mp he
    have hid : e.recipe_id = r'.id := analyzeEntryFor_id hf
    have hrr : r' = r :=
      List.inj_on_of_nodup_map hnodup hr' hr (by rw [← hid, heq])
    subst hrr
    by_contra hcon
    push_neg at hcon
    obtain ⟨hinv, hall⟩ := hcon
    have hnone : analyzeEntryFor inv ms r' = none :=
      (analyzeEntryFor_eq_none_iff inv ms r').mpr
        ⟨hinv, fun m hm => Bool.eq_false_iff.mpr (hall m hm)⟩
    rw [hnone] at hf
    cases hf
  · intro h
    have hne : analyzeEntryFor inv ms r ≠ none := by
      intro hnone
      obtain ⟨hinv, hall⟩ := (analyzeEntryFor_eq_none_iff inv ms r).mp hnone
      rcases h with rfl | ⟨m, hm, hkey⟩
      · exact hinv rfl
      · rw [hall m hm] at hkey
        cases hkey
    obtain ⟨e, hf⟩ := Option.ne_none_iff_exists'.mp hne
    exact ⟨e, List.mem_filterMap.mpr ⟨r, hr, hf⟩, analyzeEntryFor_id hf⟩

/-- Witness for C5: recipe `P` uses Herb, the inventory holds herb, so `P`
is analysed. -/
theorem analyze_inclusion_iff_witness :
    ∃ e ∈ analyzePotentialCrafts [⟨1, "P", 1, 0⟩] [⟨1, "Herb", 2, "drop", 0⟩]
        [("herb", 1)], e.recipe_id = (1 : Nat) :=
  (analyze_inclusion_iff [⟨1, "P", 1, 0⟩] [⟨1, "Herb", 2, "drop", 0⟩]
    [("herb", 1)] ⟨1, "P", 1, 0⟩ (by decide) (by decide)).mpr (by decide)

/-! ## Profitability (C6) -/

theorem foldl_add_eq_sum (f : MaterialLine → Nat) (L : List MaterialLine)
    (a : Nat) :
    L.foldl (fun acc m => acc + f m) a = a + (L.map f).sum := by
  induction L generalizing a with
  | nil => simp
  | cons m rest ih => simp [ih, Nat.add_assoc]

/-- **C6.** Every recipe appears in the profitability ranking with
`profit_npc` equal to `npc_sell_price × quantityProduced` (taking
`quantityProduced` as 1 when it is absent or zero) minus the sum of
`quantity × default_npc_price` over its non-`profession` material lines.
The difference is taken over the integers: a negative profit is a reported
value, not an error. -/
theorem profitability_formula (rs : List Recipe) (ms : List MaterialLine)
    (r : Recipe) (hr : r ∈ rs) :
    ∃ e ∈ mostProfitableNpc rs ms, e.id = r.id ∧
      e.profit_npc =
        ((r.npc_sell_price *
            (if r.quantity_produced = 0 then 1 else r.quantity_produced)
              : Nat) : Int) -
          (((((ms.filter (fun m => m.recipe_id == r.id)).filter
                (fun m => m.material_type != "profession")).map
              (fun m => m.quantity * m.default_npc_price)).sum : Nat) : Int) := by
  refine ⟨profitEntryFor ms r, ?_, rfl, ?_⟩
  · rw [mostProfitableNpc, mem_stableSort]
    exact List.mem_map_of_mem _ hr
  · show ((r.npc_sell_price *
        (if r.quantity_produced = 0 then 1 else r.quantity_produced)
          : Nat) : Int) -
      ((((ms.filter (fun m => m.recipe_id == r.id)).filter
            (fun m => m.material_type != "profession")).foldl
          (fun acc m => acc + m.quantity * m.default_npc_price) 0 : Nat) : Int)
      = _
    rw [foldl_add_eq_sum (fun m => m.quantity * m.default_npc_price), Nat.zero_add]

/-- Witness for C6: recipe `X` produces quantity 0 (counted as 1), sells for
1, and uses 3 units of a price-5 material plus a profession-type line whose
price 7 is ignored; the reported profit is the negative value 1 − 15. -/
theorem profitability_formula_witness :
    ∃ e ∈ mostProfitableNpc [⟨1, "X", 0, 1⟩]
        [⟨1, "m", 3, "buy", 5⟩, ⟨1, "p", 9, "profession", 7⟩],
      e.id = (⟨1, "X", 0, 1⟩ : Recipe).id ∧
      e.profit_npc =
        (((⟨1, "X", 0, 1⟩ : Recipe).npc_sell_price *
            (if (⟨1, "X", 0, 1⟩ : Recipe).quantity_produced = 0 then 1
             else (⟨1, "X", 0, 1⟩ : Recipe).quantity_produced) : Nat) : Int) -
          (((((([⟨1, "m", 3, "buy", 5⟩, ⟨1, "p", 9, "profession", 7⟩] :
                List MaterialLine).filter
                  (fun m => m.recipe_id == (⟨1, "X", 0, 1⟩ : Recipe).id)).filter
                (fun m => m.material_type != "profession")).map
              (fun m => m.quantity * m.default_npc_price)).sum : Nat) : Int) :=
  profitability_formula [⟨1, "X", 0, 1⟩]
    [⟨1, "m", 3, "buy", 5⟩, ⟨1, "p", 9, "profession", 7⟩]
    ⟨1, "X", 0, 1⟩ (by decide)

/-! ## Material-profile filter (C7) -/

theorem profileMatches_nil (typesArray : List String) (pr : MatchProfile) :
    profileMatches typesArray pr [] = (pr == MatchProfile.not_contains_any) := by
  cases pr <;> rfl

/-- **C7.** Against every non-empty requested type set, a recipe with zero
material lines matches only the `not_contains_any` profile: it is in the
`not_contains_any` result and out of the `exclusive`, `contains_any` and
`contains_all` results. -/
theorem profile_filter_zero_lines
    (rs : List Recipe) (ms : List MaterialLine) (typesArray : List String)
    (r : Recipe) (hr : r ∈ rs) (hts : typesArray ≠ [])
    (hempty : ms.filter (fun m => m.recipe_id == r.id) = []) :
    r ∈ filterByMaterialProfile rs ms typesArray .not_contains_any ∧
    r ∉ filterByMaterialProfile rs ms typesArray .exclusive ∧
    r ∉ filterByMaterialProfile rs ms typesArray .contains_any ∧
    r ∉ filterByMaterialProfile rs ms typesArray .contains_all := by
  have hm : ∀ pr : MatchProfile,
      profileMatches typesArray pr (ms.filter (fun m => m.recipe_id == r.id))
        = (pr == MatchProfile.not_contains_any) := by
    intro pr
    rw [hempty]
    exact profileMatches_nil typesArray pr
  refine ⟨List.mem_filter.mpr ⟨hr, by rw [hm]; rfl⟩, ?_, ?_, ?_⟩
  all_goals
    intro hmem
    have h := (List.mem_filter.mp hmem).2
    rw [hm] at h
    cases h

/-- Witness for C7 at a concrete zero-line recipe and type set
`["drop"]`. -/
theorem profile_filter_zero_lines_witness :
    (⟨1, "E", 1, 0⟩ : Recipe) ∈
        filterByMaterialProfile [⟨1, "E", 1, 0⟩] [] ["drop"]
          .not_contains_any ∧
    (⟨1, "E", 1, 0⟩ : Recipe) ∉
        filterByMaterialProfile [⟨1, "E", 1, 0⟩] [] ["drop"] .exclusive ∧
    (⟨1, "E", 1, 0⟩ : Recipe) ∉
        filterByMaterialProfile [⟨1, "E", 1, 0⟩] [] ["drop"] .contains_any ∧
    (⟨1, "E", 1, 0⟩ : Recipe) ∉
        filterByMaterialProfile [⟨1, "E", 1, 0⟩] [] ["drop"] .contains_all :=
  profile_filter_zero_lines [⟨1, "E", 1, 0⟩] [] ["drop"] ⟨1, "E", 1, 0⟩
    (by decide) (by decide) (by decide)

/-! ## Inventory validation (C9) -/

theorem addMat_ne_nil (acc : Inventory) (key : String) (q : Nat) :
    addMat acc key q ≠ [] := by
  unfold addMat
  split
  · rename_i hany
    intro hmap
    rw [List.map_eq_nil_iff] at hmap
    subst hmap
    simp at hany
  · simp

theorem buildInventory_go_eq_nil_iff (entries : List InvEntry)
    (acc : Inventory) :
    entries.foldl
        (fun acc e =>
          if validEntry e then
            addMat acc (lowerStr e.material_name) (e.quantity.getD 0).toNat
          else acc) acc = [] ↔
      acc = [] ∧ ∀ e ∈ entries, validEntry e = false := by
  induction entries generalizing acc with
  | nil => simp
  | cons e rest ih =>
    by_cases hv : validEntry e = true
    · rw [List.foldl_cons, if_pos hv, ih]
      constructor
      · rintro ⟨habs, -⟩
        exact absurd habs (addMat_ne_nil acc _ _)
      · rintro ⟨-, hall⟩
        rw [hall e (List.mem_cons_self e rest)] at hv
        cases hv
    · have hv' : validEntry e = false := Bool.eq_false_iff.mpr hv
      rw [List.foldl_cons, if_neg hv, ih]
      constructor
      · rintro ⟨hacc, hall⟩
        exact ⟨hacc, fun e' he' => by
          rcases List.mem_cons.mp he' with rfl | he'
          · exact hv'
          · exact hall e' he'⟩
      · rintro ⟨hacc, hall⟩
        exact ⟨hacc, fun e' he' => hall e' (List.mem_cons_of_mem e he')⟩

theorem buildInventory_eq_nil_iff (entries : List InvEntry) :
    buildInventory entries = [] ↔ ∀ e ∈ entries, validEntry e = false := by
  rw [buildInventory, buildInventory_go_eq_nil_iff]
  simp

theorem buildInventory_go_filter (entries : List InvEntry) (acc : Inventory) :
    entries.foldl
        (fun acc e =>
          if validEntry e then
            addMat acc (lowerStr e.material_name) (e.quantity.getD 0).toNat
          else acc) acc =
      (entries.filter validEntry).foldl
        (fun acc e =>
          if validEntry e then
            addMat acc (lowerStr e.material_name) (e.quantity.getD 0).toNat
          else acc) acc := by
  induction entries generalizing acc with
  | nil => rfl
  | cons e rest ih =>
    by_cases hv : validEntry e = true
    · rw [List.foldl_cons, if_pos hv, List.filter_cons, if_pos hv,
        List.foldl_cons, if_pos hv]
      exact ih _
    · rw [List.foldl_cons, if_neg hv, List.filter_cons,
        if_neg (by simpa using hv)]
      exact ih acc

theorem buildInventory_filter (entries : List InvEntry) :
    buildInventory entries = buildInventory (entries.filter validEntry) := by
  rw [buildInventory, buildInventory, buildInventory_go_filter]

/-- **C9.** Both crafting handlers answer `InvalidInventory` exactly when the
supplied materials array is non-empty and every entry fails the shape check
(non-empty name, numeric quantity ≥ 0); as soon as one entry is valid the
request succeeds and is computed from the valid entries only, silently
ignoring the invalid ones.  (An empty array also succeeds.) -/
theorem invalid_inventory_error_iff (rs : List Recipe) (ms : List MaterialLine)
    (entries : List InvEntry) :
    (checkPossibilitiesEndpoint rs ms entries = .error .invalidInventory ↔
      entries ≠ [] ∧ ∀ e ∈ entries, validEntry e = false) ∧
    (analyzePotentialCraftsEndpoint rs ms entries = .error .invalidInventory ↔
      entries ≠ [] ∧ ∀ e ∈ entries, validEntry e = false) ∧
    ((∃ e ∈ entries, validEntry e = true) →
      checkPossibilitiesEndpoint rs ms entries =
        .ok (checkPossibilities rs ms
          (buildInventory (entries.filter validEntry))) ∧
      analyzePotentialCraftsEndpoint rs ms entries =
        .ok (analyzePotentialCrafts rs ms
          (buildInventory (entries.filter validEntry)))) := by
  by_cases hcond : buildInventory entries = [] ∧ entries ≠ []
  · have hrhs : entries ≠ [] ∧ ∀ e ∈ entries, validEntry e = false :=
      ⟨hcond.2, (buildInventory_eq_nil_iff entries).mp hcond.1⟩
    refine ⟨?_, ?_, ?_⟩
    · simp only [checkPossibilitiesEndpoint, if_pos hcond]
      exact iff_of_true trivial hrhs
    · simp only [analyzePotentialCraftsEndpoint, if_pos hcond]
      exact iff_of_true trivial hrhs
    · rintro ⟨e, he, hv⟩
      rw [hrhs.2 e he] at hv
      cases hv
  · have hrhs : ¬ (entries ≠ [] ∧ ∀ e ∈ entries, validEntry e = false) := by
      rintro ⟨hne, hall⟩
      exact hcond ⟨(buildInventory_eq_nil_iff entries).mpr hall, hne⟩
    refine ⟨?_, ?_, ?_⟩
    · simp only [checkPossibilitiesEndpoint, if_neg hcond]
      constructor
      · intro h
        cases h
      · intro h
        exact absurd h hrhs
    · simp only [analyzePotentialCraftsEndpoint, if_neg hcond]
      constructor
      · intro h
        cases h
      · intro h
        exact absurd h hrhs
    · intro _
      rw [← buildInventory_filter]
      constructor
      · simp [checkPossibilitiesEndpoint, if_neg hcond]
      · simp [analyzePotentialCraftsEndpoint, if_neg hcond]

/-- Witness for C9: a list with one invalid entry (empty name) and one valid
entry succeeds on both endpoints, computing from the valid entry alone. -/
theorem invalid_inventory_error_iff_witness :
    checkPossibilitiesEndpoint [] [] [⟨"", some 3⟩, ⟨"A", some 2⟩] =
      .ok (checkPossibilities [] []
        (buildInventory
          (([⟨"", some 3⟩, ⟨"A", some 2⟩] : List InvEntry).filter
            validEntry))) ∧
    analyzePotentialCraftsEndpoint [] [] [⟨"", some 3⟩, ⟨"A", some 2⟩] =
      .ok (analyzePotentialCrafts [] []
        (buildInventory
          (([⟨"", some 3⟩, ⟨"A", some 2⟩] : List InvEntry).filter
            validEntry))) :=
  (invalid_inventory_error_iff [] [] [⟨"", some 3⟩, ⟨"A", some 2⟩]).2.2
    ⟨⟨"A", some 2⟩, by decide, by decide⟩

/-! ## Usage-summary grouping (C8) -/

/-- **C8 (counterexample).** Two lines named `"Herb"` and `"herb"` with the
same type form *two* groups of the usage summary (totals 2 and 3, one
recipe each) — not the single lower-cased group with total 5 and recipe
count 2 that case-insensitive grouping would produce: SQLite's
`GROUP BY material_name` compares with the default BINARY collation. -/
theorem usage_grouping_case_cex :
    (usageSummary [⟨1, "Herb", 2, "drop", 0⟩, ⟨2, "herb", 3, "drop", 0⟩]
        none []).map
      (fun row =>
        (row.material_name, row.total_quantity_needed,
          row.used_in_recipes_count)) =
      [("herb", 3, 1), ("Herb", 2, 1)] := by
  decide

/-- **C8 (amended).** The usage summary groups material lines by the exact
pair (material name, material type): every output row aggregates —
quantities summed, distinct recipe ids counted — precisely over the lines
matching its name case-sensitively (each group keeps the casing of its own
lines; names differing only in case form separate groups). -/
theorem usage_grouping_exact_key (mats : List MaterialLine) :
    ∀ row ∈ usageSummary mats none [],
      row.total_quantity_needed =
        ((mats.filter (fun m =>
            m.material_name == row.material_name &&
              m.material_type == row.material_type)).map
          (fun m => m.quantity)).sum ∧
      row.used_in_recipes_count =
        ((mats.filter (fun m =>
            m.material_name == row.material_name &&
              m.material_type == row.material_type)).map
          (fun m => m.recipe_id)).dedup.length := by
  intro row hrow
  simp only [usageSummary] at hrow
  rw [mem_stableSort] at hrow
  obtain ⟨k, hk, hrowk⟩ := List.mem_map.mp hrow
  subst hrowk
  have hpass : mats.filter (usageRowPasses none []) = mats :=
    List.filter_eq_self.mpr (fun m _ => rfl)
  constructor
  · simp [usageGroupRow, hpass]
  · simp [usageGroupRow, hpass]

/-- Witness for the amended C8 at the row grouping the lower-case `"herb"`
line alone. -/
theorem usage_grouping_exact_key_witness :
    (⟨"herb", "drop", 3, 1, none⟩ : UsageRow).total_quantity_needed =
        ((([⟨1, "Herb", 2, "drop", 0⟩, ⟨2, "herb", 3, "drop", 0⟩] :
            List MaterialLine).filter (fun m =>
            m.material_name == (⟨"herb", "drop", 3, 1, none⟩ :
                UsageRow).material_name &&
              m.material_type == (⟨"herb", "drop", 3, 1, none⟩ :
                UsageRow).material_type)).map
          (fun m => m.quantity)).sum ∧
      (⟨"herb", "drop", 3, 1, none⟩ : UsageRow).used_in_recipes_count =
        ((([⟨1, "Herb", 2, "drop", 0⟩, ⟨2, "herb", 3, "drop", 0⟩] :
            List MaterialLine).filter (fun m =>
            m.material_name == (⟨"herb", "drop", 3, 1, none⟩ :
                UsageRow).material_name &&
              m.material_type == (⟨"herb", "drop", 3, 1, none⟩ :
                UsageRow).material_type)).map
          (fun m => m.recipe_id)).dedup.length :=
  usage_grouping_exact_key
    [⟨1, "Herb", 2, "drop", 0⟩, ⟨2, "herb", 3, "drop", 0⟩]
    ⟨"herb", "drop", 3, 1, none⟩ (by decide)

/-! ## SQL LIKE and the usage-summary name filter (C10) -/

theorem likeMatch_nil_pattern (s : List Char) :
    likeMatch [] s = s.isEmpty := by
  simp [likeMatch]

theorem likeMatch_pct_nil (ps : List Char) :
    likeMatch ('%' :: ps) [] = likeMatch ps [] := by
  rw [likeMatch]
  simp

theorem likeMatch_pct_cons (ps : List Char) (c : Char) (cs : List Char) :
    likeMatch ('%' :: ps) (c :: cs) =
      (likeMatch ps (c :: cs) || likeMatch ('%' :: ps) cs) := by
  rw [likeMatch]
  simp

theorem likeMatch_plain_nil (p : Char) (ps : List Char) (hp : p ≠ '%') :
    likeMatch (p :: ps) [] = false := by
  rw [likeMatch]
  simp [hp]

theorem likeMatch_plain_cons (p : Char) (ps : List Char) (c : Char)
    (cs : List Char) (hp : p ≠ '%') (hu : p ≠ '_') :
    likeMatch (p :: ps) (c :: cs) = (p == c && likeMatch ps cs) := by
  rw [likeMatch]
  simp [hp, hu]

theorem likeMatch_all_pct (s : List Char) : likeMatch ['%'] s = true := by
  induction s with
  | nil =>
    rw [likeMatch_pct_nil, likeMatch_nil_pattern]
    rfl
  | cons c cs ih =>
    rw [likeMatch_pct_cons, ih]
    simp

theorem likeMatch_append_pct_iff (q : List Char)
    (hq : ∀ c ∈ q, c ≠ '%' ∧ c ≠ '_') (s : List Char) :
    (likeMatch (q ++ ['%']) s = true) ↔ q <+: s := by
  induction q generalizing s with
  | nil =>
    simp [likeMatch_all_pct, List.nil_prefix]
  | cons a q' ih =>
    have ha := hq a (List.mem_cons_self a q')
    cases s with
    | nil =>
      rw [List.cons_append, likeMatch_plain_nil a _ ha.1]
      simp
    | cons c cs =>
      rw [List.cons_append, likeMatch_plain_cons a _ c cs ha.1 ha.2,
        Bool.and_eq_true, beq_iff_eq,
        ih (fun c' hc' => hq c' (List.mem_cons_of_mem a hc')),
        List.cons_prefix_cons]

theorem likeMatch_pct_iff (ps : List Char) (s : List Char) :
    (likeMatch ('%' :: ps) s = true) ↔
      ∃ t, t <:+ s ∧ likeMatch ps t = true := by
  induction s with
  | nil =>
    rw [likeMatch_pct_nil]
    constructor
    · intro h
      exact ⟨[], List.suffix_refl [], h⟩
    · rintro ⟨t, ht, hm⟩
      rw [List.suffix_nil] at ht
      subst ht
      exact hm
  | cons c cs ih =>
    rw [likeMatch_pct_cons, Bool.or_eq_true, ih]
    constructor
    · rintro (h | ⟨t, ht, hm⟩)
      · exact ⟨c :: cs, List.suffix_refl _, h⟩
      · exact ⟨t, ht.trans (List.suffix_cons c cs), hm⟩
    · rintro ⟨t, ht, hm⟩
      rcases List.suffix_cons_iff.mp ht with rfl | ht'
      · exact Or.inl hm
      · exact Or.inr ⟨t, ht', hm⟩

/-- For a wildcard-free needle `q`, the SQL pattern `%q%` matches exactly the
strings containing `q` as a contiguous substring. -/
theorem likeMatch_substring_iff (q s : List Char)
    (hq : ∀ c ∈ q, c ≠ '%' ∧ c ≠ '_') :
    (likeMatch ('%' :: q ++ ['%']) s = true) ↔ q <:+: s := by
  rw [List.cons_append, likeMatch_pct_iff]
  constructor
  · rintro ⟨t, ht, hm⟩
    rw [likeMatch_append_pct_iff q hq] at hm
    exact List.infix_iff_prefix_suffix.mpr ⟨t, hm, ht⟩
  · intro h
    obtain ⟨t, hpre, hsuf⟩ := List.infix_iff_prefix_suffix.mp h
    exact ⟨t, hsuf, (likeMatch_append_pct_iff q hq t).mpr hpre⟩

theorem usageRowPasses_some_nil (q : String) (m : MaterialLine) :
    usageRowPasses (some q) [] m =
      likeMatch ('%' :: (lowerStr q).data ++ ['%'])
        (lowerStr m.material_name).data := by
  simp [usageRowPasses]

/-- **C10.** With a wildcard-free `materialName` query `q`, the usage summary
contains a row for the key `(n, t)` iff some material line carries exactly
that name and type and the lower-cased `q` occurs as a contiguous substring
of the lower-cased name — `LIKE` with `%` on both sides selects substring
matches, not only exact equality. -/
theorem usage_name_filter_substring
    (mats : List MaterialLine) (q : String)
    (hq : ∀ c ∈ (lowerStr q).data, c ≠ '%' ∧ c ≠ '_') (n t : String) :
    (∃ row ∈ usageSummary mats (some q) [],
      row.material_name = n ∧ row.material_type = t) ↔
      ((∃ m ∈ mats, m.material_name = n ∧ m.material_type = t) ∧
        (lowerStr q).data <:+: (lowerStr n).data) := by
  constructor
  · rintro ⟨row, hrow, hname, htype⟩
    simp only [usageSummary] at hrow
    rw [mem_stableSort] at hrow
    obtain ⟨k, hk, hrk⟩ := List.mem_map.mp hrow
    have hk1 : k.1 = n := by
      rw [← hrk] at hname
      exact hname
    have hk2 : k.2 = t := by
      rw [← hrk] at htype
      exact htype
    rw [List.mem_dedup] at hk
    obtain ⟨m, hmrows, hmk⟩ := List.mem_map.mp hk
    obtain ⟨hmm, hmpass⟩ := List.mem_filter.mp hmrows
    have hmn : m.material_name = n := by
      rw [← hk1]
      exact congrArg Prod.fst hmk
    have hmt : m.material_type = t := by
      rw [← hk2]
      exact congrArg Prod.snd hmk
    refine ⟨⟨m, hmm, hmn, hmt⟩, ?_⟩
    rw [usageRowPasses_some_nil] at hmpass
    rw [← hmn]
    exact (likeMatch_substring_iff _ _ hq).mp hmpass
  · rintro ⟨⟨m, hm, hmn, hmt⟩, hinf⟩
    have hpass : usageRowPasses (some q) [] m = true := by
      rw [usageRowPasses_some_nil, hmn]
      exact (likeMatch_substring_iff _ _ hq).mpr hinf
    refine ⟨usageGroupRow mats (some q) [] (n, t), ?_, rfl, rfl⟩
    simp only [usageSummary]
    rw [mem_stableSort]
    refine List.mem_map_of_mem _ ?_
    rw [List.mem_dedup]
    exact List.mem_map.mpr
      ⟨m, List.mem_filter.mpr ⟨hm, hpass⟩, by rw [hmn, hmt]⟩

/-- Witness for C10: the query `"ron O"` (lower-cased `"ron o"`) is a proper
substring — not the whole — of `"Iron Ore"`'s lower-casing, and the summary
filtered by it contains the `("Iron Ore", "drop")` row. -/
theorem usage_name_filter_substring_witness :
    (∀ c ∈ (lowerStr "ron O").data, c ≠ '%' ∧ c ≠ '_') ∧
    ∃ row ∈ usageSummary [⟨1, "Iron Ore", 2, "drop", 5⟩] (some "ron O") [],
      row.material_name = "Iron Ore" ∧ row.material_type = "drop" :=
  ⟨by decide,
    (usage_name_filter_substring [⟨1, "Iron Ore", 2, "drop", 5⟩] "ron O"
      (by decide) "Iron Ore" "drop").mpr (by decide)⟩
